import Mathlib

/-
  Verification development for the Hive SQL lineage extractor
  (src/src-tauri/src/lib.rs, `HiveSqlParser`).

  The extractor consumes an AST produced by the external `sqlparser`
  library (HiveDialect); that library is an external collaborator, so it
  is represented here as a parameter `P : String -> Except String (List
  Statement)` mapping a cleaned statement string to its parsed AST
  statements (or a parse error).  The AST fragment below mirrors exactly
  the `sqlparser::ast` shapes the source code matches on; every shape the
  source sends to a default (ignore/print) branch is collapsed into an
  `Other*` constructor, which is faithful because the source treats all
  such shapes identically (it only prints them).

  The preprocessor (comment stripping, lowercasing, bucket-clause
  removal, splitting on semicolons) is outside the fragment under
  verification: `parse` below receives the sequence of cleaned statement
  strings, exactly the values the source's loop body works on after
  preprocessing.
-/

namespace ParseHive

/- AST fragment of `sqlparser::ast` as consumed by the source.
`ObjectName` is represented by its list of identifier part values
(`ident.value` strings), matching how the source reads it. -/
mutual

inductive Statement where
  | CreateTable (name : List String) (query : Option Query)
  | Insert (tableName : List String) (source : Option Query)
  | Query (query : Query)
  | CreateView (name : List String) (query : Query)
  | Directory (source : Query)
  | OtherStmt

inductive Query where
  | mk (withClause : Option With) (body : SetExpr)

inductive With where
  | mk (cte_tables : List Cte)

inductive Cte where
  | mk (aliasName : String) (query : Query)

inductive SetExpr where
  | Select (select : Select)
  | Query (query : Query)
  | Insert (stmt : Statement)
  | SetOperation (left : SetExpr) (right : SetExpr)
  | OtherSetExpr

inductive Select where
  | mk (from_ : List TableWithJoins) (selection : Option Expr) (having : Option Expr)

inductive TableWithJoins where
  | mk (relation : TableFactor) (joins : List Join)

inductive TableFactor where
  | Table (name : List String)
  | Derived (subquery : Query)
  | OtherFactor

inductive Join where
  | mk (relation : TableFactor)

inductive Expr where
  | Subquery (subquery : Query)
  | Exists (subquery : Query)
  | InSubquery (subquery : Query)
  | BinaryOp (left : Expr) (right : Expr)
  | OtherExpr

end

/-- The mutable parser state (struct `HiveSqlParser`, lib.rs lines 14-20):
current database, accumulated result, per-statement scratch list, and the
per-statement CTE-name set.  The Rust `HashSet<String>` is modelled as a
duplicate-free-by-insertion list; only membership, insertion and clearing
are ever used. -/
structure Session where
  current_database : String
  all_table_names : List String
  table_names : List String
  cte_names : List String
deriving DecidableEq, Repr

/-- `HiveSqlParser::new` (lib.rs lines 29-36). -/
def Session.new : Session :=
  { current_database := "default"
    all_table_names := []
    table_names := []
    cte_names := [] }

/-- `HashSet::insert`: add a name to the CTE set (no duplicates). -/
def hashsetInsert (l : List String) (a : String) : List String :=
  if a ∈ l then l else a :: l

/-- `get_origin_table_name` (lib.rs lines 307-312): the identifier parts
concatenated with no separator (`collect::<String>()`). -/
def get_origin_table_name (name : List String) : String :=
  String.join name

/-- `get_actual_table_name` (lib.rs lines 292-305): a two-part reference
is joined with a dot unchanged; any other arity is prefixed with the
current database and a dot. -/
def get_actual_table_name (s : Session) (name : List String) : String :=
  if name.length = 2 then
    String.intercalate "." name
  else
    s.current_database ++ "." ++ String.intercalate "." name

/-- `add_valid_table_name` (lib.rs lines 177-182): push the qualified
name onto `table_names` unless the origin name is a registered CTE. -/
def add_valid_table_name (s : Session) (name : List String) : Session :=
  if get_origin_table_name name ∈ s.cte_names then s
  else { s with table_names := s.table_names ++ [get_actual_table_name s name] }

mutual

/-- `handle_statment` (lib.rs lines 142-175): statement dispatch. -/
def handle_statment (s : Session) : Statement → Session
  | .CreateTable _ (some boxed_query) => handle_statment_query s boxed_query
  | .Insert _ (some boxed_source) => handle_statment_query s boxed_source
  | .Query query => extract_table_names_from_query s query
  | .CreateView _ query => extract_table_names_from_query s query
  | .Directory source => extract_table_names_from_query s source
  | _ => s

/-- `handle_statment_query` (lib.rs lines 116-140): restricted handler
used for insert/CTAS sources; only a plain `Select` body's FROM list is
inspected. -/
def handle_statment_query (s : Session) : Query → Session
  | .mk _ (.Select (.mk from_ _ _)) => handle_statment_query_from s from_
  | _ => s

/-- The `for table_with_joins in &select.from` loop inside
`handle_statment_query` (lib.rs lines 119-138): the `if let` pattern
requires the primary relation to be a plain table; any other shape skips
the whole entry, joins included. -/
def handle_statment_query_from (s : Session) : List TableWithJoins → Session
  | [] => s
  | .mk relation joins :: rest =>
      handle_statment_query_from
        (match relation with
         | .Table name => handle_statment_query_joins (add_valid_table_name s name) joins
         | _ => s)
        rest

/-- The `for j in joins` loop inside `handle_statment_query` (lib.rs
lines 128-136). -/
def handle_statment_query_joins (s : Session) : List Join → Session
  | [] => s
  | .mk relation :: rest =>
      handle_statment_query_joins
        (match relation with
         | .Table name => add_valid_table_name s name
         | .Derived subquery => extract_table_names_from_query s subquery
         | _ => s)
        rest

/-- `extract_cte_names` (lib.rs lines 184-189): for each CTE in
declaration order, register its alias, then walk its query. -/
def extract_cte_names (s : Session) : List Cte → Session
  | [] => s
  | .mk aliasName query :: rest =>
      extract_cte_names
        (extract_table_names_from_query
          { s with cte_names := hashsetInsert s.cte_names aliasName } query)
        rest

/-- `extract_table_names_from_joins` (lib.rs lines 191-199). -/
def extract_table_names_from_joins (s : Session) : List Join → Session
  | [] => s
  | .mk relation :: rest =>
      extract_table_names_from_joins
        (match relation with
         | .Table name => add_valid_table_name s name
         | .Derived subquery => extract_table_names_from_query s subquery
         | _ => s)
        rest

/-- `extract_table_names_from_expr` (lib.rs lines 201-208): walk only an
expression that is directly a subquery. -/
def extract_table_names_from_expr (s : Session) : Expr → Session
  | .Subquery subquery => extract_table_names_from_query s subquery
  | _ => s

/-- The `match &select.selection` block of `extract_table_names_from_select`
(lib.rs lines 233-244): an EXISTS or IN subquery predicate is walked; a
binary operator has its right then left operand inspected shallowly;
every other shape is ignored. -/
def extract_table_names_from_selection (s : Session) : Option Expr → Session
  | some (.Exists subquery) => extract_table_names_from_query s subquery
  | some (.InSubquery subquery) => extract_table_names_from_query s subquery
  | some (.BinaryOp left right) =>
      extract_table_names_from_expr (extract_table_names_from_expr s right) left
  | _ => s

/-- The `match &select.having` block of `extract_table_names_from_select`
(lib.rs lines 246-254): only a binary operator is inspected (right then
left operand, shallowly); every other shape is ignored. -/
def extract_table_names_from_having (s : Session) : Option Expr → Session
  | some (.BinaryOp left right) =>
      extract_table_names_from_expr (extract_table_names_from_expr s right) left
  | _ => s

/-- `extract_table_names_from_select` (lib.rs lines 210-255): FROM list,
then the WHERE predicate, then the HAVING predicate. -/
def extract_table_names_from_select (s : Session) : Select → Session
  | .mk from_ selection having =>
      extract_table_names_from_having
        (extract_table_names_from_selection
          (extract_table_names_from_select_from s from_) selection)
        having

/-- The `for table_with_joins in &select.from` loop of
`extract_table_names_from_select` (lib.rs lines 211-231). -/
def extract_table_names_from_select_from (s : Session) : List TableWithJoins → Session
  | [] => s
  | .mk relation joins :: rest =>
      extract_table_names_from_select_from
        (match relation with
         | .Table name => extract_table_names_from_joins (add_valid_table_name s name) joins
         | .Derived subquery =>
             extract_table_names_from_joins (extract_table_names_from_query s subquery) joins
         | _ => s)
        rest

/-- `extract_table_names_from_set_option` (lib.rs lines 257-269): recurse
into both operands of a set operation; handle a plain select operand;
ignore every other operand shape. -/
def extract_table_names_from_set_option (s : Session) : SetExpr → Session
  | .SetOperation left right =>
      extract_table_names_from_set_option (extract_table_names_from_set_option s left) right
  | .Select select => extract_table_names_from_select s select
  | _ => s

/-- `extract_table_names_from_query` (lib.rs lines 271-290): WITH clause
first, then dispatch on the body shape. -/
def extract_table_names_from_query (s : Session) : Query → Session
  | .mk withClause body =>
      let s1 := match withClause with
        | some (.mk cte_tables) => extract_cte_names s cte_tables
        | none => s
      match body with
      | .Select select => extract_table_names_from_select s1 select
      | .Query query => extract_table_names_from_query s1 query
      | .Insert insert => handle_statment s1 insert
      | .SetOperation left right =>
          extract_table_names_from_set_option (extract_table_names_from_set_option s1 left) right
      | _ => s1

end

/-- `str::starts_with` on characters (prefix test). -/
def charsStartsWith : List Char → List Char → Bool
  | _, [] => true
  | [], _ :: _ => false
  | c :: cs, p :: ps => c = p && charsStartsWith cs ps

/-- Rust `str::starts_with`. -/
def starts_with (q p : String) : Bool :=
  charsStartsWith q.data p.data

/-- Worker for `str::split_whitespace`. -/
def rustSplitWhitespaceAux : List Char → List Char → List String
  | [], acc => if acc.isEmpty then [] else [String.mk acc.reverse]
  | c :: cs, acc =>
      if c.isWhitespace then
        if acc.isEmpty then rustSplitWhitespaceAux cs []
        else String.mk acc.reverse :: rustSplitWhitespaceAux cs []
      else rustSplitWhitespaceAux cs (c :: acc)

/-- Rust `str::split_whitespace().collect::<Vec<_>>()`: maximal runs of
non-whitespace characters, empties skipped. -/
def rustSplitWhitespace (q : String) : List String :=
  rustSplitWhitespaceAux q.data []

/-- `handle_use_database` (lib.rs lines 99-105): only a statement that
splits into exactly two whitespace-separated tokens updates
`current_database` (to the second token); anything else is ignored. -/
def handle_use_database (s : Session) (query : String) : Session :=
  match rustSplitWhitespace query with
  | [_, db] => { s with current_database := db }
  | _ => s

/-- `handle_query` (lib.rs lines 107-114): parse the statement string via
the external library `P`; on success fold `handle_statment` over the
returned AST statements, on failure propagate the error. -/
def handle_query (P : String → Except String (List Statement))
    (s : Session) (query : String) : Except String Session :=
  match P query with
  | .error e => .error e
  | .ok ast => .ok (ast.foldl handle_statment s)

/-- The end-of-statement fold in `parse` (lib.rs lines 87-93): drain
`table_names` into `all_table_names`, dropping entries contained in
`cte_names`, then clear `cte_names`. -/
def fold_table_names (s : Session) : Session :=
  { s with
    all_table_names := s.all_table_names ++ s.table_names.filter (fun n => !s.cte_names.contains n)
    table_names := []
    cte_names := [] }

/-- The statement loop of `parse` (lib.rs lines 68-97) over the cleaned
statement strings, with the external parsing library `P`.  Returns the
final session and `some error` when the library rejected a statement
(the Rust function mutates `self` and returns `Err`; the session paired
with the error is the retained state). -/
def parse (P : String → Except String (List Statement))
    (s : Session) : List String → Session × Option String
  | [] => (s, none)
  | q :: rest =>
      if q = "" || starts_with q "set " then parse P s rest
      else if starts_with q "use " then parse P (handle_use_database s q) rest
      else
        match handle_query P s q with
        | .error e => (s, some e)
        | .ok s1 => parse P (fold_table_names s1) rest

/-- `get_table_names` (lib.rs lines 314-316). -/
def get_table_names (s : Session) : List String :=
  s.all_table_names

end ParseHive

namespace ParseHive

/-! ### Helper lemmas -/

theorem join_singleton (a : String) : String.join [a] = a := rfl

theorem intercalate_singleton (a : String) : String.intercalate "." [a] = a := rfl

theorem intercalate_pair (a b : String) : String.intercalate "." [a, b] = a ++ "." ++ b := rfl

theorem join_pair (a b : String) : String.join [a, b] = a ++ b := rfl

theorem get_actual_one (s : Session) (t : String) :
    get_actual_table_name s [t] = s.current_database ++ "." ++ t := by
  simp [get_actual_table_name, intercalate_singleton]

theorem get_actual_two (s : Session) (db t : String) :
    get_actual_table_name s [db, t] = db ++ "." ++ t := by
  simp [get_actual_table_name, intercalate_pair]

end ParseHive

namespace ParseHive

theorem lsub_refl (l : List String) : l ⊆ l := fun _ ha => ha

theorem lsub_trans {l₁ l₂ l₃ : List String} (h₁ : l₁ ⊆ l₂) (h₂ : l₂ ⊆ l₃) : l₁ ⊆ l₃ :=
  fun _ ha => h₂ (h₁ ha)

/-- Resolving (or filtering) a table reference never touches the CTE set. -/
theorem add_valid_cte (s : Session) (name : List String) :
    (add_valid_table_name s name).cte_names = s.cte_names := by
  unfold add_valid_table_name
  split <;> rfl

theorem hashsetInsert_subset (l : List String) (a : String) : l ⊆ hashsetInsert l a := by
  unfold hashsetInsert
  split
  · exact lsub_refl _
  · exact fun _ hx => List.mem_cons_of_mem a hx

theorem mem_hashsetInsert_self (l : List String) (a : String) : a ∈ hashsetInsert l a := by
  unfold hashsetInsert
  split
  · assumption
  · exact List.mem_cons_self a l

/-! ### The CTE set only grows during a statement walk -/

mutual

theorem cte_mono_stmt : ∀ (s : Session) (st : Statement),
    s.cte_names ⊆ (handle_statment s st).cte_names
  | s, .CreateTable _ (some q) => cte_mono_hsq s q
  | _, .CreateTable _ none => lsub_refl _
  | s, .Insert _ (some q) => cte_mono_hsq s q
  | _, .Insert _ none => lsub_refl _
  | s, .Query q => cte_mono_query s q
  | s, .CreateView _ q => cte_mono_query s q
  | s, .Directory q => cte_mono_query s q
  | _, .OtherStmt => lsub_refl _

theorem cte_mono_hsq : ∀ (s : Session) (q : Query),
    s.cte_names ⊆ (handle_statment_query s q).cte_names
  | s, .mk _ (.Select (.mk f _ _)) => cte_mono_hsq_from s f
  | _, .mk _ (.Query _) => lsub_refl _
  | _, .mk _ (.Insert _) => lsub_refl _
  | _, .mk _ (.SetOperation _ _) => lsub_refl _
  | _, .mk _ .OtherSetExpr => lsub_refl _

theorem cte_mono_hsq_from : ∀ (s : Session) (l : List TableWithJoins),
    s.cte_names ⊆ (handle_statment_query_from s l).cte_names
  | _, [] => lsub_refl _
  | s, .mk (.Table name) joins :: rest => fun a ha =>
      cte_mono_hsq_from _ rest
        (cte_mono_hsq_joins _ joins (by rw [add_valid_cte]; exact ha))
  | s, .mk (.Derived _) joins :: rest => cte_mono_hsq_from s rest
  | s, .mk .OtherFactor joins :: rest => cte_mono_hsq_from s rest

theorem cte_mono_hsq_joins : ∀ (s : Session) (l : List Join),
    s.cte_names ⊆ (handle_statment_query_joins s l).cte_names
  | _, [] => lsub_refl _
  | s, .mk (.Table name) :: rest => fun a ha =>
      cte_mono_hsq_joins _ rest (by rw [add_valid_cte]; exact ha)
  | s, .mk (.Derived sub) :: rest =>
      lsub_trans (cte_mono_query s sub) (cte_mono_hsq_joins _ rest)
  | s, .mk .OtherFactor :: rest => cte_mono_hsq_joins s rest

theorem cte_mono_ctes : ∀ (s : Session) (l : List Cte),
    s.cte_names ⊆ (extract_cte_names s l).cte_names
  | _, [] => lsub_refl _
  | s, .mk a q :: rest => fun _ hx =>
      cte_mono_ctes _ rest
        (cte_mono_query _ q (hashsetInsert_subset s.cte_names a hx))

theorem cte_mono_joins : ∀ (s : Session) (l : List Join),
    s.cte_names ⊆ (extract_table_names_from_joins s l).cte_names
  | _, [] => lsub_refl _
  | s, .mk (.Table name) :: rest => fun a ha =>
      cte_mono_joins _ rest (by rw [add_valid_cte]; exact ha)
  | s, .mk (.Derived sub) :: rest =>
      lsub_trans (cte_mono_query s sub) (cte_mono_joins _ rest)
  | s, .mk .OtherFactor :: rest => cte_mono_joins s rest

theorem cte_mono_expr : ∀ (s : Session) (e : Expr),
    s.cte_names ⊆ (extract_table_names_from_expr s e).cte_names
  | s, .Subquery q => cte_mono_query s q
  | _, .Exists _ => lsub_refl _
  | _, .InSubquery _ => lsub_refl _
  | _, .BinaryOp _ _ => lsub_refl _
  | _, .OtherExpr => lsub_refl _

theorem cte_mono_selection : ∀ (s : Session) (o : Option Expr),
    s.cte_names ⊆ (extract_table_names_from_selection s o).cte_names
  | s, some (.Exists q) => cte_mono_query s q
  | s, some (.InSubquery q) => cte_mono_query s q
  | s, some (.BinaryOp left right) =>
      lsub_trans (cte_mono_expr s right) (cte_mono_expr _ left)
  | _, some (.Subquery _) => lsub_refl _
  | _, some .OtherExpr => lsub_refl _
  | _, none => lsub_refl _

theorem cte_mono_having : ∀ (s : Session) (o : Option Expr),
    s.cte_names ⊆ (extract_table_names_from_having s o).cte_names
  | s, some (.BinaryOp left right) =>
      lsub_trans (cte_mono_expr s right) (cte_mono_expr _ left)
  | _, some (.Subquery _) => lsub_refl _
  | _, some (.Exists _) => lsub_refl _
  | _, some (.InSubquery _) => lsub_refl _
  | _, some .OtherExpr => lsub_refl _
  | _, none => lsub_refl _

theorem cte_mono_select : ∀ (s : Session) (sel : Select),
    s.cte_names ⊆ (extract_table_names_from_select s sel).cte_names
  | s, .mk f selct hav =>
      lsub_trans (cte_mono_select_from s f)
        (lsub_trans (cte_mono_selection _ selct) (cte_mono_having _ hav))

theorem cte_mono_select_from : ∀ (s : Session) (l : List TableWithJoins),
    s.cte_names ⊆ (extract_table_names_from_select_from s l).cte_names
  | _, [] => lsub_refl _
  | s, .mk (.Table name) joins :: rest => fun a ha =>
      cte_mono_select_from _ rest
        (cte_mono_joins _ joins (by rw [add_valid_cte]; exact ha))
  | s, .mk (.Derived sub) joins :: rest =>
      lsub_trans (cte_mono_query s sub)
        (lsub_trans (cte_mono_joins _ joins) (cte_mono_select_from _ rest))
  | s, .mk .OtherFactor joins :: rest => cte_mono_select_from s rest

theorem cte_mono_set_option : ∀ (s : Session) (n : SetExpr),
    s.cte_names ⊆ (extract_table_names_from_set_option s n).cte_names
  | s, .SetOperation left right =>
      lsub_trans (cte_mono_set_option s left) (cte_mono_set_option _ right)
  | s, .Select sel => cte_mono_select s sel
  | _, .Query _ => lsub_refl _
  | _, .Insert _ => lsub_refl _
  | _, .OtherSetExpr => lsub_refl _

theorem cte_mono_query : ∀ (s : Session) (q : Query),
    s.cte_names ⊆ (extract_table_names_from_query s q).cte_names
  | s, .mk none (.Select sel) => cte_mono_select s sel
  | s, .mk none (.Query q2) => cte_mono_query s q2
  | s, .mk none (.Insert st) => cte_mono_stmt s st
  | s, .mk none (.SetOperation left right) =>
      lsub_trans (cte_mono_set_option s left) (cte_mono_set_option _ right)
  | _, .mk none .OtherSetExpr => lsub_refl _
  | s, .mk (some (.mk ctes)) (.Select sel) =>
      lsub_trans (cte_mono_ctes s ctes) (cte_mono_select _ sel)
  | s, .mk (some (.mk ctes)) (.Query q2) =>
      lsub_trans (cte_mono_ctes s ctes) (cte_mono_query _ q2)
  | s, .mk (some (.mk ctes)) (.Insert st) =>
      lsub_trans (cte_mono_ctes s ctes) (cte_mono_stmt _ st)
  | s, .mk (some (.mk ctes)) (.SetOperation left right) =>
      lsub_trans (cte_mono_ctes s ctes)
        (lsub_trans (cte_mono_set_option _ left) (cte_mono_set_option _ right))
  | s, .mk (some (.mk ctes)) .OtherSetExpr => cte_mono_ctes s ctes

end

end ParseHive

namespace ParseHive

/-! ### Fold behaviour -/

/-- Membership in the accumulated result after the end-of-statement fold:
an entry of the scratch list survives exactly when the entry string
itself is not in `cte_names`. -/
theorem mem_fold_table_names (s : Session) (n : String) :
    n ∈ (fold_table_names s).all_table_names ↔
      n ∈ s.all_table_names ∨ (n ∈ s.table_names ∧ n ∉ s.cte_names) := by
  simp [fold_table_names, List.mem_filter, List.elem_iff]

/-! ### Claims -/

/-- Claim C1: a table reference resolved and recorded while the current
database is `d` is appended as `d.t` when the raw reference has one part
`t`, and as `db.t` unchanged when it already has two parts `db.t`. -/
theorem c1_qualification (s : Session) (t db : String)
    (h1 : t ∉ s.cte_names) (h2 : db ++ t ∉ s.cte_names) :
    add_valid_table_name s [t]
        = { s with table_names := s.table_names ++ [s.current_database ++ "." ++ t] }
    ∧ add_valid_table_name s [db, t]
        = { s with table_names := s.table_names ++ [db ++ "." ++ t] } := by
  constructor
  · simp [add_valid_table_name, get_origin_table_name, join_singleton, get_actual_one, h1]
  · simp [add_valid_table_name, get_origin_table_name, join_pair, get_actual_two, h2]

theorem c1_qualification_witness :
    ("t" ∉ Session.new.cte_names)
    ∧ ("db" ++ "t" ∉ Session.new.cte_names)
    ∧ add_valid_table_name Session.new ["t"]
        = { Session.new with table_names := ["default.t"] }
    ∧ add_valid_table_name Session.new ["db", "t"]
        = { Session.new with table_names := ["db.t"] } :=
  ⟨by decide, by decide,
   (c1_qualification Session.new "t" "db" (by decide) (by decide)).1,
   (c1_qualification Session.new "t" "db" (by decide) (by decide)).2⟩

/-- Claim C2: a CTE alias registered in the statement being walked is
never emitted.  (i) The resolve-time membership test uses the origin
name, i.e. the raw identifier parts concatenated with no separator: a
reference whose origin name is a registered CTE alias is not recorded at
all.  (ii) The CTE set only grows while a statement's AST is walked, so
an alias registered at any point of the walk is still registered when
the statement's names are folded.  (iii) The fold appends no name that
is in the CTE set, so a registered alias never reaches the batch output
list. -/
theorem c2_cte_exclusion :
    (∀ (s : Session) (name : List String),
        get_origin_table_name name ∈ s.cte_names → add_valid_table_name s name = s)
    ∧ (∀ (s : Session) (st : Statement), s.cte_names ⊆ (handle_statment s st).cte_names)
    ∧ (∀ (s : Session) (a : String), a ∈ s.cte_names →
        (a ∈ (fold_table_names s).all_table_names ↔ a ∈ s.all_table_names)) := by
  refine ⟨?_, cte_mono_stmt, ?_⟩
  · intro s name h
    simp [add_valid_table_name, h]
  · intro s a ha
    rw [mem_fold_table_names]
    constructor
    · rintro (h | ⟨_, hn⟩)
      · exact h
      · exact absurd ha hn
    · exact Or.inl

theorem c2_cte_exclusion_witness :
    (get_origin_table_name ["c"] ∈ ({ Session.new with cte_names := ["c"] } : Session).cte_names)
    ∧ add_valid_table_name { Session.new with cte_names := ["c"] } ["c"]
        = { Session.new with cte_names := ["c"] }
    ∧ ("c" ∈ ({ Session.new with table_names := ["d.x"], cte_names := ["c"] } : Session).cte_names)
    ∧ (("c" ∈ (fold_table_names
          { Session.new with table_names := ["d.x"], cte_names := ["c"] }).all_table_names) ↔
        ("c" ∈ ({ Session.new with table_names := ["d.x"], cte_names := ["c"] } : Session).all_table_names)) :=
  ⟨by decide,
   c2_cte_exclusion.1 _ ["c"] (by decide),
   by decide,
   c2_cte_exclusion.2.2 _ "c" (by decide)⟩

end ParseHive

namespace ParseHive

/-- The database-switch handler never touches any field other than
`current_database`. -/
theorem handle_use_database_frame (s : Session) (q : String) :
    (handle_use_database s q).all_table_names = s.all_table_names
    ∧ (handle_use_database s q).table_names = s.table_names
    ∧ (handle_use_database s q).cte_names = s.cte_names := by
  unfold handle_use_database
  split <;> exact ⟨rfl, rfl, rfl⟩

/-- After `parse` processes any batch from a state with empty scratch
lists, the scratch lists are empty again: each non-skipped statement
ends with the fold clearing `table_names` and `cte_names`, and skipped
statements leave them untouched. -/
theorem parse_scratch_clear (P : String → Except String (List Statement))
    (qs : List String) (s : Session)
    (ht : s.table_names = []) (hc : s.cte_names = []) :
    (parse P s qs).1.table_names = [] ∧ (parse P s qs).1.cte_names = [] := by
  induction qs generalizing s with
  | nil => exact ⟨ht, hc⟩
  | cons q rest ih =>
      rw [parse]
      split
      · exact ih s ht hc
      · split
        · refine ih _ ?_ ?_
          · rw [(handle_use_database_frame s q).2.1]; exact ht
          · rw [(handle_use_database_frame s q).2.2]; exact hc
        · rcases handle_query P s q with e | s1
          · exact ⟨ht, hc⟩
          · exact ih _ rfl rfl

/-- Concrete AST for a query reading `test.x`. -/
def q_from_x : Query := .mk none (.Select (.mk [.mk (.Table ["test", "x"]) []] none none))

/-- Concrete AST for `with c as (select * from test.x) select * from c`. -/
def stmt_with_c : Statement :=
  .Query (.mk (some (.mk [.mk "c" q_from_x])) (.Select (.mk [.mk (.Table ["c"]) []] none none)))

/-- Concrete AST for `select * from c`. -/
def stmt_select_c : Statement :=
  .Query (.mk none (.Select (.mk [.mk (.Table ["c"]) []] none none)))

/-- Stand-in for the external sqlparser on the C3 scenario batch. -/
def p_cte_scope : String → Except String (List Statement) := fun q =>
  if q = "with c as (select * from test.x) select * from c" then .ok [stmt_with_c]
  else if q = "select * from c" then .ok [stmt_select_c]
  else .error "sql parser error"

/-- Claim C3: CTE scope is per-statement.  The scratch lists
`table_names` and `cte_names` are cleared after every statement is
folded into `all_table_names` (first conjunct), and in the concrete
batch declaring CTE `c` in statement 1 and selecting from plain `c` in
statement 2, the statement-1 reference to `c` is excluded while the
statement-2 reference is included qualified with the then-current
database (second conjunct). -/
theorem c3_cte_scope_per_statement :
    (∀ (P : String → Except String (List Statement)) (qs : List String) (s : Session),
        s.table_names = [] → s.cte_names = [] →
        (parse P s qs).1.table_names = [] ∧ (parse P s qs).1.cte_names = [])
    ∧ parse p_cte_scope Session.new
        ["with c as (select * from test.x) select * from c", "select * from c"]
        = ({ current_database := "default", all_table_names := ["test.x", "default.c"],
             table_names := [], cte_names := [] }, none) :=
  ⟨parse_scratch_clear, rfl⟩

theorem c3_cte_scope_per_statement_witness :
    Session.new.table_names = [] ∧ Session.new.cte_names = []
    ∧ (parse p_cte_scope Session.new ["select * from c"]).1.table_names = []
    ∧ (parse p_cte_scope Session.new ["select * from c"]).1.cte_names = [] :=
  ⟨rfl, rfl,
   (c3_cte_scope_per_statement.1 p_cte_scope ["select * from c"] Session.new rfl rfl).1,
   (c3_cte_scope_per_statement.1 p_cte_scope ["select * from c"] Session.new rfl rfl).2⟩

end ParseHive

namespace ParseHive

/-- A statement starting with `use ` is not empty. -/
theorem use_ne_empty (q : String) (h : starts_with q "use " = true) : ¬(q = "") := by
  intro he
  subst he
  exact absurd h (by decide)

/-- A statement starting with `use ` does not start with `set `. -/
theorem use_not_set (q : String) (h : starts_with q "use " = true) :
    starts_with q "set " = false := by
  have hu : ("use ").data = ['u', 's', 'e', ' '] := rfl
  have hs : ("set ").data = ['s', 'e', 't', ' '] := rfl
  unfold starts_with at h ⊢
  rw [hu] at h
  rw [hs]
  rcases hd : q.data with _ | ⟨c, cs⟩
  · rw [hd] at h
    exact absurd h (by decide)
  · rw [hd] at h
    simp only [charsStartsWith, Bool.and_eq_true, decide_eq_true_eq] at h
    obtain ⟨hc, -⟩ := h
    subst hc
    rfl

/-- One `parse` step on a well-formed database switch: the current
database is replaced and the rest of the batch is processed from there. -/
theorem parse_use_step (P : String → Except String (List Statement))
    (s : Session) (q name : String) (rest : List String)
    (huse : starts_with q "use " = true)
    (hsplit : rustSplitWhitespace q = ["use", name]) :
    parse P s (q :: rest) = parse P { s with current_database := name } rest := by
  have hne : ¬(q = "") := use_ne_empty q huse
  have hset : starts_with q "set " = false := use_not_set q huse
  rw [parse, if_neg (by simp [hne, hset]), if_pos huse]
  unfold handle_use_database
  rw [hsplit]

/-- Claim C4: a well-formed database-switch statement `use name` sets
`current_database` to `name` for the remainder of the batch, appends no
table name, and leaves `all_table_names`, `table_names`, and `cte_names`
unchanged; qualification of a later unqualified reference then uses the
new database. -/
theorem c4_use_database (P : String → Except String (List Statement))
    (s : Session) (q name : String) (rest : List String)
    (huse : starts_with q "use " = true)
    (hsplit : rustSplitWhitespace q = ["use", name]) :
    parse P s (q :: rest) = parse P { s with current_database := name } rest
    ∧ ({ s with current_database := name } : Session).all_table_names = s.all_table_names
    ∧ ({ s with current_database := name } : Session).table_names = s.table_names
    ∧ ({ s with current_database := name } : Session).cte_names = s.cte_names
    ∧ (∀ t : String,
        get_actual_table_name { s with current_database := name } [t] = name ++ "." ++ t) := by
  refine ⟨parse_use_step P s q name rest huse hsplit, rfl, rfl, rfl, ?_⟩
  intro t
  exact get_actual_one _ t

theorem c4_use_database_witness :
    (starts_with "use db1" "use " = true)
    ∧ (rustSplitWhitespace "use db1" = ["use", "db1"])
    ∧ parse p_cte_scope Session.new ("use db1" :: [])
        = parse p_cte_scope { Session.new with current_database := "db1" } []
    ∧ get_actual_table_name { Session.new with current_database := "db1" } ["t"]
        = "db1" ++ "." ++ "t" :=
  ⟨by decide, by decide,
   (c4_use_database p_cte_scope Session.new "use db1" "db1" [] (by decide) (by decide)).1,
   (c4_use_database p_cte_scope Session.new "use db1" "db1" [] (by decide) (by decide)).2.2.2.2 "t"⟩

/-- Claim C10: a cleaned statement that begins with `use ` but does not
split into exactly two whitespace-separated tokens is silently skipped:
`parse` continues on the rest of the batch with the session (including
`current_database`) completely unchanged, and no error is reported. -/
theorem c10_malformed_use (P : String → Except String (List Statement))
    (s : Session) (q : String) (rest : List String)
    (huse : starts_with q "use " = true)
    (hlen : (rustSplitWhitespace q).length ≠ 2) :
    parse P s (q :: rest) = parse P s rest := by
  have hne : ¬(q = "") := use_ne_empty q huse
  have hset : starts_with q "set " = false := use_not_set q huse
  rw [parse, if_neg (by simp [hne, hset]), if_pos huse]
  have hud : handle_use_database s q = s := by
    unfold handle_use_database
    rcases hd : rustSplitWhitespace q with _ | ⟨a, _ | ⟨b, _ | ⟨c, l⟩⟩⟩
    · rfl
    · rfl
    · exact absurd (by rw [hd]; rfl) hlen
    · rfl
  rw [hud]

theorem c10_malformed_use_witness :
    (starts_with "use db1 extra" "use " = true)
    ∧ ((rustSplitWhitespace "use db1 extra").length ≠ 2)
    ∧ parse p_cte_scope Session.new ("use db1 extra" :: []) = parse p_cte_scope Session.new [] :=
  ⟨by decide, by decide,
   c10_malformed_use p_cte_scope Session.new "use db1 extra" [] (by decide) (by decide)⟩

end ParseHive

namespace ParseHive

/-- One-step unfolding of the `parse` statement loop. -/
theorem parse_cons (P : String → Except String (List Statement))
    (s : Session) (q : String) (rest : List String) :
    parse P s (q :: rest) =
      if q = "" || starts_with q "set " then parse P s rest
      else if starts_with q "use " then parse P (handle_use_database s q) rest
      else
        match handle_query P s q with
        | .error e => (s, some e)
        | .ok s1 => parse P (fold_table_names s1) rest := rfl

/-- Claim C5: if the external parsing library rejects a cleaned
statement `q` (and `q` is not skipped as empty/`set `/`use `), the whole
`parse` call returns that error immediately: the result is the state
accumulated by the statements before `q` paired with the error, and it
does not depend on the statements after `q` (they are never processed);
no table list is surfaced, while the previously folded names remain in
`all_table_names` of the retained state. -/
theorem c5_syntax_error_aborts (P : String → Except String (List Statement))
    (s : Session) (pre : List String) (q e : String) (rest : List String)
    (hpre : (parse P s pre).2 = none)
    (hq1 : ¬(q = "")) (hq2 : starts_with q "set " = false)
    (hq3 : ¬(starts_with q "use " = true))
    (hq4 : P q = .error e) :
    parse P s (pre ++ q :: rest) = ((parse P s pre).1, some e) := by
  induction pre generalizing s with
  | nil =>
      simp only [List.nil_append]
      rw [parse_cons, if_neg (by simp [hq1, hq2]), if_neg hq3]
      unfold handle_query
      rw [hq4]
      rfl
  | cons p ps ih =>
      simp only [List.cons_append]
      by_cases h1 : (decide (p = "") || starts_with p "set ") = true
      · rw [parse_cons, if_pos h1] at hpre
        calc parse P s (p :: (ps ++ q :: rest))
            = parse P s (ps ++ q :: rest) := by rw [parse_cons, if_pos h1]
          _ = ((parse P s ps).1, some e) := ih s hpre
          _ = ((parse P s (p :: ps)).1, some e) := by rw [parse_cons, if_pos h1]
      · by_cases h2 : starts_with p "use " = true
        · rw [parse_cons, if_neg h1, if_pos h2] at hpre
          calc parse P s (p :: (ps ++ q :: rest))
              = parse P (handle_use_database s p) (ps ++ q :: rest) := by
                rw [parse_cons, if_neg h1, if_pos h2]
            _ = ((parse P (handle_use_database s p) ps).1, some e) := ih _ hpre
            _ = ((parse P s (p :: ps)).1, some e) := by rw [parse_cons, if_neg h1, if_pos h2]
        · rcases hh : handle_query P s p with e1 | s1
          · rw [parse_cons, if_neg h1, if_neg h2, hh] at hpre
            exact absurd hpre (Option.some_ne_none e1)
          · rw [parse_cons, if_neg h1, if_neg h2, hh] at hpre
            calc parse P s (p :: (ps ++ q :: rest))
                = parse P (fold_table_names s1) (ps ++ q :: rest) := by
                  rw [parse_cons, if_neg h1, if_neg h2, hh]
              _ = ((parse P (fold_table_names s1) ps).1, some e) := ih _ hpre
              _ = ((parse P s (p :: ps)).1, some e) := by
                  rw [parse_cons, if_neg h1, if_neg h2, hh]

theorem c5_syntax_error_aborts_witness :
    ((parse p_cte_scope Session.new ["select * from c"]).2 = none)
    ∧ (¬("bogus(" = ""))
    ∧ (starts_with "bogus(" "set " = false)
    ∧ (¬(starts_with "bogus(" "use " = true))
    ∧ (p_cte_scope "bogus(" = .error "sql parser error")
    ∧ parse p_cte_scope Session.new
        (["select * from c"] ++ "bogus(" :: ["select * from test.x"])
        = ((parse p_cte_scope Session.new ["select * from c"]).1, some "sql parser error") :=
  ⟨rfl, by decide, by decide, by decide, rfl,
   c5_syntax_error_aborts p_cte_scope Session.new ["select * from c"]
     "bogus(" "sql parser error" ["select * from test.x"]
     rfl (by decide) (by decide) (by decide) rfl⟩

end ParseHive

namespace ParseHive

/-! ### Concrete ASTs used by the corrected claims -/

/-- `select * from test.a`. -/
def sel_from_a : Select := .mk [.mk (.Table ["test", "a"]) []] none none

/-- `select * from test.b`. -/
def sel_from_b : Select := .mk [.mk (.Table ["test", "b"]) []] none none

/-- `select * from test.b` as a query. -/
def q_from_b : Query := .mk none (.Select sel_from_b)

/-- `select * from test.a union all select * from test.b` as a query. -/
def q_union_ab : Query := .mk none (.SetOperation (.Select sel_from_a) (.Select sel_from_b))

/-- `insert overwrite table test.out (select * from test.a union all
select * from test.b)`: an insert whose source body is a set operation. -/
def stmt_insert_union : Statement := .Insert ["test", "out"] (some q_union_ab)

/-- `select * from test.src` as a query. -/
def q_from_src : Query := .mk none (.Select (.mk [.mk (.Table ["test", "src"]) []] none none))

/-- Stand-in for the external sqlparser on the C6 scenario batch. -/
def p_insert_overwrite : String → Except String (List Statement) := fun q =>
  if q = "insert overwrite table test.out select * from test.src"
  then .ok [.Insert ["test", "out"] (some q_from_src)]
  else .error "sql parser error"

/-- Claim C6 counterexample: an insert-overwrite whose source query is a
set operation records nothing, although the Query Walker applied to the
same source records both read tables — so the source of a write
statement is not, in general, run through the Query Walker. -/
theorem c6_counterexample :
    (handle_statment Session.new stmt_insert_union).table_names = []
    ∧ (extract_table_names_from_query Session.new q_union_ab).table_names
        = ["test.a", "test.b"] :=
  ⟨rfl, rfl⟩

/-- Claim C6 (amended): for every write statement (insert with a source,
or create-table-as-select), the written-to target is not recorded and
the result is independent of the target name; the source query is
handled by the restricted handler `handle_statment_query` (FROM-clause
tables and joins of a plain top-level select body only), not by the full
Query Walker; the batch `insert overwrite table test.out select * from
test.src` yields exactly `test.src`. -/
theorem c6_write_statement :
    (∀ (s : Session) (target1 target2 : List String) (source : Query),
        handle_statment s (.Insert target1 (some source))
          = handle_statment s (.Insert target2 (some source)))
    ∧ (∀ (s : Session) (target : List String) (source : Query),
        handle_statment s (.Insert target (some source)) = handle_statment_query s source)
    ∧ (∀ (s : Session) (target1 target2 : List String) (source : Query),
        handle_statment s (.CreateTable target1 (some source))
          = handle_statment s (.CreateTable target2 (some source)))
    ∧ (∀ (s : Session) (target : List String) (source : Query),
        handle_statment s (.CreateTable target (some source)) = handle_statment_query s source)
    ∧ parse p_insert_overwrite Session.new
        ["insert overwrite table test.out select * from test.src"]
        = ({ current_database := "default", all_table_names := ["test.src"],
             table_names := [], cte_names := [] }, none) :=
  ⟨fun _ _ _ _ => rfl, fun _ _ _ => rfl, fun _ _ _ _ => rfl, fun _ _ _ => rfl, rfl⟩

/-- A set-operation operand that is a parenthesized query rather than a
plain select or a nested set operation. -/
def set_op_with_paren : SetExpr := .SetOperation (.Select sel_from_a) (.Query q_from_b)

/-- Claim C7 counterexample: a set operation whose right operand is a
parenthesized query collects only the left operand's table, although the
top-level query-body handler applied to that right operand collects its
table — so set-operation operands are not handled with the same handler
used for top-level query bodies, and a table referenced inside such an
operand is lost. -/
theorem c7_counterexample :
    (extract_table_names_from_set_option Session.new set_op_with_paren).table_names
        = ["test.a"]
    ∧ (extract_table_names_from_query Session.new q_from_b).table_names = ["test.b"] :=
  ⟨rfl, rfl⟩

/-- The plain-select leaves of a set-operation tree, left to right. -/
def selectLeaves : SetExpr → List Select
  | .SetOperation left right => selectLeaves left ++ selectLeaves right
  | .Select select => [select]
  | _ => []

/-- Claim C7 (amended): the set-operation handler recurses independently
into the left and right operands, handling plain-select operands with
the select handler and ignoring operands of any other shape (e.g. a
parenthesized query): walking a set-operation tree equals folding the
select handler over its plain-select leaves in left-to-right order, so
every table in an arbitrarily deep chain whose operands are nested set
operations or plain selects is collected. -/
theorem c7_set_operation_walk :
    ∀ (n : SetExpr) (s : Session),
      extract_table_names_from_set_option s n
        = (selectLeaves n).foldl extract_table_names_from_select s
  | .SetOperation left right, s => by
      rw [show extract_table_names_from_set_option s (.SetOperation left right)
            = extract_table_names_from_set_option
                (extract_table_names_from_set_option s left) right from rfl,
          show selectLeaves (.SetOperation left right)
            = selectLeaves left ++ selectLeaves right from rfl,
          List.foldl_append,
          c7_set_operation_walk left s,
          c7_set_operation_walk right]
  | .Select _, _ => rfl
  | .Query _, _ => rfl
  | .Insert _, _ => rfl
  | .OtherSetExpr, _ => rfl

/-- Claim C8 counterexample: an EXISTS (subquery) predicate in HAVING is
not walked (its subquery's table is absent), although the same predicate
as a WHERE selection is walked — so the claim that WHERE and HAVING
treat an EXISTS/IN form alike fails for HAVING. -/
theorem c8_counterexample :
    (extract_table_names_from_select Session.new
        (.mk [.mk (.Table ["test", "a"]) []] none (some (.Exists q_from_b)))).table_names
      = ["test.a"]
    ∧ (extract_table_names_from_select Session.new
        (.mk [.mk (.Table ["test", "a"]) []] (some (.Exists q_from_b)) none)).table_names
      = ["test.a", "test.b"] :=
  ⟨rfl, rfl⟩

/-- Claim C8 (amended): predicate inspection is shallow and asymmetric.
For WHERE: an EXISTS or IN subquery predicate has its subquery walked; a
binary expression has its right then left operand inspected, an operand
being walked only when it is directly a subquery; a subquery nested at a
third level of a compound expression contributes nothing.  For HAVING:
only the binary-expression shape is inspected (same shallow operand
rule); an EXISTS or IN subquery predicate in HAVING is ignored
entirely. -/
theorem c8_shallow_predicates :
    (∀ (s : Session) (f : List TableWithJoins) (q : Query),
        extract_table_names_from_select s (.mk f (some (.Exists q)) none)
          = extract_table_names_from_query (extract_table_names_from_select_from s f) q)
    ∧ (∀ (s : Session) (f : List TableWithJoins) (q : Query),
        extract_table_names_from_select s (.mk f (some (.InSubquery q)) none)
          = extract_table_names_from_query (extract_table_names_from_select_from s f) q)
    ∧ (∀ (s : Session) (f : List TableWithJoins) (left right : Expr),
        extract_table_names_from_select s (.mk f (some (.BinaryOp left right)) none)
          = extract_table_names_from_expr
              (extract_table_names_from_expr
                (extract_table_names_from_select_from s f) right) left)
    ∧ (∀ (s : Session) (e : Expr), (∀ q : Query, e ≠ .Subquery q) →
        extract_table_names_from_expr s e = s)
    ∧ (∀ (s : Session) (f : List TableWithJoins) (q : Query) (l r : Expr),
        extract_table_names_from_select s
            (.mk f (some (.BinaryOp (.BinaryOp (.Subquery q) l) r)) none)
          = extract_table_names_from_expr (extract_table_names_from_select_from s f) r)
    ∧ (∀ (s : Session) (f : List TableWithJoins) (left right : Expr),
        extract_table_names_from_select s (.mk f none (some (.BinaryOp left right)))
          = extract_table_names_from_expr
              (extract_table_names_from_expr
                (extract_table_names_from_select_from s f) right) left)
    ∧ (∀ (s : Session) (f : List TableWithJoins) (selct : Option Expr) (q : Query),
        extract_table_names_from_select s (.mk f selct (some (.Exists q)))
          = extract_table_names_from_select s (.mk f selct none))
    ∧ (∀ (s : Session) (f : List TableWithJoins) (selct : Option Expr) (q : Query),
        extract_table_names_from_select s (.mk f selct (some (.InSubquery q)))
          = extract_table_names_from_select s (.mk f selct none)) := by
  refine ⟨fun _ _ _ => rfl, fun _ _ _ => rfl, fun _ _ _ _ => rfl, ?_,
          fun _ _ _ _ _ => rfl, fun _ _ _ _ => rfl, fun _ _ _ _ => rfl, fun _ _ _ _ => rfl⟩
  intro s e h
  cases e with
  | Subquery q => exact absurd rfl (h q)
  | Exists q => rfl
  | InSubquery q => rfl
  | BinaryOp l r => rfl
  | OtherExpr => rfl

theorem c8_shallow_predicates_witness :
    (∀ q : Query, Expr.OtherExpr ≠ .Subquery q)
    ∧ extract_table_names_from_expr Session.new .OtherExpr = Session.new :=
  ⟨fun _ h => (nomatch h),
   c8_shallow_predicates.2.2.2.1 Session.new .OtherExpr (fun _ h => (nomatch h))⟩

/-- `select * from test.z` as a query. -/
def q_from_z : Query := .mk none (.Select (.mk [.mk (.Table ["test", "z"]) []] none none))

/-- `(with dbt as (select * from test.z) select * from dbt)`: a derived
subquery declaring CTE `dbt`. -/
def sub_with_dbt : Query :=
  .mk (some (.mk [.mk "dbt" q_from_z])) (.Select (.mk [.mk (.Table ["dbt"]) []] none none))

/-- `select * from db.t join (with dbt as (select * from test.z) select
* from dbt) s0`: the two-part reference `db.t` (origin concatenation
`dbt`) is pushed before the derived join subquery registers the CTE
alias `dbt`. -/
def stmt_fold_leak : Statement :=
  .Query (.mk none (.Select
    (.mk [.mk (.Table ["db", "t"]) [.mk (.Derived sub_with_dbt)]] none none)))

/-- Claim C9 counterexample: at fold time the CTE set contains `dbt`,
the scratch list contains the entry `db.t` whose un-qualified
concatenation is exactly `dbt`, and yet the fold keeps `db.t` in the
output — the fold compares the stored qualified string itself against
`cte_names`, not the un-qualified concatenation. -/
theorem c9_counterexample :
    get_origin_table_name ["db", "t"] = "dbt"
    ∧ "dbt" ∈ (handle_statment Session.new stmt_fold_leak).cte_names
    ∧ "db.t" ∈ (handle_statment Session.new stmt_fold_leak).table_names
    ∧ "db.t" ∈ (fold_table_names (handle_statment Session.new stmt_fold_leak)).all_table_names :=
  ⟨rfl, by decide, by decide, by decide⟩

/-- Claim C9 (amended): when a statement's `table_names` are folded into
`all_table_names`, an entry is excluded exactly when the entry string
itself (the already-qualified name) is a member of `cte_names`; the
un-qualified concatenation of the original reference is not recomputed
at fold time.  The fold also clears both scratch fields and keeps the
current database. -/
theorem c9_fold_filter :
    ∀ (s : Session) (n : String),
      (n ∈ (fold_table_names s).all_table_names ↔
        n ∈ s.all_table_names ∨ (n ∈ s.table_names ∧ n ∉ s.cte_names))
      ∧ (fold_table_names s).table_names = []
      ∧ (fold_table_names s).cte_names = []
      ∧ (fold_table_names s).current_database = s.current_database :=
  fun s n => ⟨mem_fold_table_names s n, rfl, rfl, rfl⟩

end ParseHive
